import Mathlib

/-!
# Verification of the weight-app repository

Shallow embedding of the day-indexed entry store, the weight parser, the
day-navigation state machine, the chart window builder and the gesture
recognizer of the repository (files `src/app.js`, `src/unnamed/part_000`,
`src/unnamed/part_001`).

Modelling conventions:

* Calendar days (`YYYY-MM-DD` ISO strings in the code) are modelled as `ℤ`,
  the day number in a linear calendar.  The code's `shiftISO` performs exact
  calendar day arithmetic via the host `Date` object, so it is addition on
  day numbers; `localeCompare` on well-formed ISO strings is exactly the
  chronological (integer) order; `isFutureISODate` is `today < d`.
* JS numbers are modelled as exact rationals `ℚ` (weights, pixel offsets);
  `Date.now()` timestamps and millisecond durations as `ℤ`.  `Math.round`
  is Mathlib's `round` (both are `⌊x + 1/2⌋`).
* `Array.prototype.sort` with a comparator is a stable comparator sort; it
  is modelled by `List.insertionSort`, which is stable, with the same
  comparator.
* The JSON layer of `localStorage` is abstracted at the parse boundary:
  the raw repository content is `Option (Option (List RawRecord))` -- the
  outer `none` is a missing key, the middle `none` a parse failure or a
  non-array value, and a `RawRecord` carries each field as `Option`
  (`none` = field missing or of the wrong runtime type).
* Event handlers are functions of the state they read (entry list, selected
  day, the staged text of the weight input) returning the new state together
  with the list of `setStatus` calls they make; the status message texts are
  an inductive type (string interpolation belongs to the excluded rendering
  layer).
-/

/-- An entry record: `{ entryDate, weight, createdAt }` as in all three
source files. -/
structure Entry where
  entryDate : ℤ
  weight : ℚ
  createdAt : ℤ
deriving DecidableEq, Repr

/-- The comparator `(a, b) => a.entryDate.localeCompare(b.entryDate)` used by
`sortByEntryDateAsc` (app.js line 96, part_000 line 79) and `sortEntries`
(part_001 line 87). -/
def entryLE (a b : Entry) : Prop := a.entryDate ≤ b.entryDate

instance : DecidableRel entryLE := fun a b => Int.decLe a.entryDate b.entryDate

instance : IsTotal Entry entryLE := ⟨fun a b => Int.le_total a.entryDate b.entryDate⟩

instance : IsTrans Entry entryLE := ⟨fun _ _ _ h h' => le_trans h h'⟩

/-- `sortByEntryDateAsc` / `sortEntries`: stable sort of the entry list by
`entryDate` ascending. -/
def sortEntries (l : List Entry) : List Entry := l.insertionSort entryLE

/-- `upsertEntry` (app.js lines 100-106, part_001 lines 95-100): drop every
entry of the same day, append a fresh record with `createdAt = Date.now()`,
re-sort, persist.  `now` is the value of `Date.now()`. -/
def upsertEntry (now day : ℤ) (weight : ℚ) (entries : List Entry) : List Entry :=
  sortEntries ((entries.filter fun e => e.entryDate ≠ day) ++ [⟨day, weight, now⟩])

/-- `findEntry` (part_001 lines 91-93): `entries.find(e => e.entryDate === iso) || null`. -/
def findEntry (entries : List Entry) (day : ℤ) : Option Entry :=
  entries.find? fun e => e.entryDate = day

/-- One element of the parsed JSON array: each field is `none` when it is
missing or not of the runtime type the code checks for. -/
structure RawRecord where
  entryDate : Option ℤ
  weight : Option ℚ
  createdAt : Option ℤ
deriving DecidableEq, Repr

/-- The raw repository content at the parse boundary (see the header):
`none` = `localStorage.getItem` returned null; `some none` = `JSON.parse`
threw or the result was not an array; `some (some l)` = a parsed array. -/
abbrev RawSnapshot : Type := Option (Option (List RawRecord))

/-- `loadEntries` (app.js lines 71-88, part_000 lines 53-71, part_001 lines
65-81): keep the records that have a string `entryDate` and a numeric
`weight`; default a missing or non-numeric `createdAt` to `Date.now()`. -/
def loadEntries (raw : RawSnapshot) (now : ℤ) : List Entry :=
  match raw with
  | none => []
  | some none => []
  | some (some l) =>
      (l.filter fun r => r.entryDate.isSome ∧ r.weight.isSome).filterMap fun r =>
        match r.entryDate, r.weight with
        | some d, some w => some ⟨d, w, r.createdAt.getD now⟩
        | _, _ => none

/-! ## Weight parser (app.js `parseWeightInput` lines 108-115, part_000 lines
91-101, part_001 `parseWeight` lines 104-110) -/

/-- The WhiteSpace/LineTerminator set trimmed by `String.prototype.trim`. -/
def isJsSpace (c : Char) : Bool :=
  c = ' ' || c = '\t' || c = '\n' || c = '\r' ||
  c.toNat = 0x0b || c.toNat = 0x0c || c.toNat = 0xa0 || c.toNat = 0x1680 ||
  (0x2000 ≤ c.toNat && c.toNat ≤ 0x200a) ||
  c.toNat = 0x2028 || c.toNat = 0x2029 || c.toNat = 0x202f ||
  c.toNat = 0x205f || c.toNat = 0x3000 || c.toNat = 0xfeff

/-- `raw.trim()`. -/
def jsTrim (l : List Char) : List Char :=
  ((l.dropWhile isJsSpace).reverse.dropWhile isJsSpace).reverse

/-- `.replace(",", ".")` with a string pattern replaces only the FIRST
occurrence. -/
def replaceFirstComma : List Char → List Char
  | [] => []
  | c :: t => if c = ',' then '.' :: t else c :: replaceFirstComma t

/-- The result of the host `Number(string)` conversion. -/
inductive JSNum where
  | nan
  | posInf
  | negInf
  | fin (q : ℚ)
deriving DecidableEq, Repr

/-- ASCII decimal digit test (code points 48-57). -/
def isAsciiDigit (c : Char) : Bool := 48 ≤ c.toNat && c.toNat ≤ 57

/-- Value of a run of decimal digits, most significant first. -/
def natOfDigits (l : List Char) : ℕ :=
  l.foldl (fun a c => 10 * a + (c.toNat - 48)) 0

/-- Value of one hexadecimal digit (also used for the smaller radixes,
which restrict the admissible range). -/
def hexDigitVal (c : Char) : Option ℕ :=
  match c.toNat with
  | n =>
      if 48 ≤ n ∧ n ≤ 57 then some (n - 48)
      else if 97 ≤ n ∧ n ≤ 102 then some (n - 87)
      else if 65 ≤ n ∧ n ≤ 70 then some (n - 55)
      else none

/-- Value of a non-empty digit list in the given base, `none` when some
character is not a digit of that base or the list is empty. -/
def radixVal (base : ℕ) (l : List Char) : Option ℕ :=
  match l with
  | [] => none
  | _ =>
    l.foldl
      (fun acc c =>
        match acc, hexDigitVal c with
        | some a, some v => if v < base then some (base * a + v) else none
        | _, _ => none)
      (some 0)

/-- The digit content of an unsigned decimal literal `ip [. fp] [e/E exp]`:
integer-part value, fraction-part value and digit count, exponent sign and
value.  The numeric value it denotes is computed by `decValue`; splitting
syntax from value keeps the parsing phase inside `ℕ`. -/
structure DecLit where
  ip : ℕ
  fp : ℕ
  fpLen : ℕ
  expNeg : Bool
  expVal : ℕ
deriving DecidableEq, Repr

/-- The exact rational denoted by a decimal literal:
`(ip + fp / 10 ^ fpLen) * 10 ^ ±exp`. -/
def decValue (d : DecLit) : ℚ :=
  let m : ℚ := (d.ip : ℚ) + (d.fp : ℚ) / 10 ^ d.fpLen
  if d.expNeg then m / 10 ^ d.expVal else m * 10 ^ d.expVal

/-- Exponent suffix of a decimal literal: after `e`/`E`, an optional sign and
a non-empty run of digits, consuming the whole rest. -/
def expTailP (l : List Char) : Option (Bool × ℕ) :=
  let core : List Char → Bool → Option (Bool × ℕ) := fun r neg =>
    let ds := r.takeWhile isAsciiDigit
    if ds = [] ∨ r.dropWhile isAsciiDigit ≠ [] then none
    else some (neg, natOfDigits ds)
  match l with
  | '+' :: r => core r false
  | '-' :: r => core r true
  | r => core r false

/-- A `StrDecimalLiteral` without sign: digits, optional fraction, optional
exponent; at least one digit must be present; the whole list is consumed. -/
def decBodyP (l : List Char) : Option DecLit :=
  let ip := l.takeWhile isAsciiDigit
  let r1 := l.dropWhile isAsciiDigit
  let finish : List Char → ℕ → ℕ → Option DecLit := fun rest fpv fplen =>
    match rest with
    | [] => some ⟨natOfDigits ip, fpv, fplen, false, 0⟩
    | 'e' :: r4 => (expTailP r4).map fun p => ⟨natOfDigits ip, fpv, fplen, p.1, p.2⟩
    | 'E' :: r4 => (expTailP r4).map fun p => ⟨natOfDigits ip, fpv, fplen, p.1, p.2⟩
    | _ => none
  match r1 with
  | '.' :: r2 =>
      let fp := r2.takeWhile isAsciiDigit
      if ip = [] ∧ fp = [] then none
      else finish (r2.dropWhile isAsciiDigit) (natOfDigits fp) fp.length
  | _ => if ip = [] then none else finish r1 0 0

/-- Syntactic shape recognized by the host `Number(string)` conversion. -/
inductive NumParse where
  | nan
  | inf (neg : Bool)
  | dec (neg : Bool) (d : DecLit)
  | radix (n : ℕ)
deriving DecidableEq, Repr

/-- Signed decimal literal or `Infinity`. -/
def signedBodyP (l : List Char) : NumParse :=
  let body : List Char → Bool → NumParse := fun r neg =>
    if r = "Infinity".data then .inf neg
    else
      match decBodyP r with
      | some d => .dec neg d
      | none => .nan
  match l with
  | '+' :: r => body r false
  | '-' :: r => body r true
  | r => body r false

/-- The shape of an already-trimmed character list under the ECMA
`StringNumericLiteral` grammar: the empty string denotes `0`;
`0x`/`0o`/`0b` radix literals (no sign allowed); otherwise an optionally
signed decimal literal or `Infinity`; anything else is NaN. -/
def jsNumberP (l : List Char) : NumParse :=
  match l with
  | [] => .radix 0
  | '0' :: c :: r =>
      if c = 'x' ∨ c = 'X' then match radixVal 16 r with
        | some n => .radix n
        | none => .nan
      else if c = 'o' ∨ c = 'O' then match radixVal 8 r with
        | some n => .radix n
        | none => .nan
      else if c = 'b' ∨ c = 'B' then match radixVal 2 r with
        | some n => .radix n
        | none => .nan
      else signedBodyP ('0' :: c :: r)
  | l => signedBodyP l

/-- The host `Number(string)` conversion on an already-trimmed character
list: the recognized shape interpreted as an exact rational. -/
def jsNumber (l : List Char) : JSNum :=
  match jsNumberP l with
  | .nan => .nan
  | .inf false => .posInf
  | .inf true => .negInf
  | .dec neg d => .fin (if neg then -(decValue d) else decValue d)
  | .radix n => .fin n

/-- The normalization prefix of the parser: `raw.trim().replace(",", ".")`. -/
def normalizeWeightText (raw : String) : List Char :=
  replaceFirstComma (jsTrim raw.data)

/-- `parseWeightInput` / `parseWeight`: trim, normalize the first comma to a
period, reject empty / non-finite / `<= 0` / `> 1400`, round to one decimal
(`Math.round(n * 10) / 10`).  Returns `none` for an invalid input. -/
def parseWeight (raw : String) : Option ℚ :=
  let normalized := normalizeWeightText raw
  if normalized = [] then none
  else
    match jsNumber normalized with
    | .fin n => if n ≤ 0 ∨ n > 1400 then none else some ((round (n * 10) : ℤ) / 10 : ℚ)
    | _ => none

/-! ## Navigation, auto-save and gestures

`isFutureISODate iso` is `today < iso` on day numbers.  Status message
texts shown through `setStatus` are represented by an inductive type; the
interpolation of `Saved X for Y.` belongs to the excluded rendering layer. -/

/-- The distinct `setStatus` texts of the code. -/
inductive StatusMsg where
  /-- `setStatus("")` -/
  | cleared
  /-- `"Invalid weight."` -/
  | invalidWeight
  /-- `"Future dates blocked."` -/
  | futureBlocked
  /-- `"Missing date."` -/
  | missingDate
  /-- The template `Saved (weight) for (day).` -/
  | saved (w : ℚ) (d : ℤ)
deriving DecidableEq, Repr

/-- Swipe direction on release: in both variants `"right"` navigates to the
previous day and `"left"` to the next day. -/
inductive SwipeDir where
  | left
  | right
deriving DecidableEq, Repr

/-- What the touchend handler decides: commit a navigation or snap back. -/
inductive GestureOutcome where
  | commit (dir : SwipeDir)
  | snapBack
deriving DecidableEq, Repr

/-- Result of an event handler over the session state it mutates: the entry
list, the selected day and the `setStatus` calls it made, in order. -/
structure NavRun where
  entries : List Entry
  selectedISO : ℤ
  statusCalls : List StatusMsg
deriving DecidableEq, Repr

/-- `shiftDay` (part_001 lines 250-255) and `shiftSelectedDay` (app.js lines
224-231) compute the same new selection: `next = shiftISO(selectedISO,
delta)`, rejected with no state change when `isFutureISODate(next)`. -/
def shiftDaySel (today sel delta : ℤ) : ℤ :=
  if today < sel + delta then sel else sel + delta

namespace Mass

/-! The `src/unnamed/part_001` (auto-save) variant. -/

/-- Outcome of `autoSaveIfValid` (part_001 lines 116-128). -/
structure SaveRun where
  entries : List Entry
  statusCalls : List StatusMsg
  committed : Bool
deriving DecidableEq, Repr

/-- `autoSaveIfValid` (part_001 lines 116-128): parse the staged text of the
weight input; when invalid, optionally (non-quiet, non-blank input) report
`Invalid weight.` and change nothing; when valid, upsert for the currently
selected day and optionally report the save. -/
def autoSaveIfValid (quiet : Bool) (now sel : ℤ) (staged : String)
    (entries : List Entry) : SaveRun :=
  match parseWeight staged with
  | none =>
      ⟨entries, if quiet = false ∧ jsTrim staged.data ≠ [] then [.invalidWeight] else [], false⟩
  | some w =>
      ⟨upsertEntry now sel w entries, if quiet then [] else [.saved w sel], true⟩

/-- The state mutation of `commitSwipe` (part_001 lines 285-310): quiet
auto-save of the day being left, then `shiftDay(-1)` for `"right"` or
`shiftDay(+1)` for `"left"`.  Neither `shiftDay` branch calls `setStatus`. -/
def commitSwipe (today now : ℤ) (dir : SwipeDir) (staged : String)
    (entries : List Entry) (sel : ℤ) : NavRun :=
  let r := autoSaveIfValid true now sel staged entries
  let sel2 := shiftDaySel today sel (if dir = .right then -1 else 1)
  ⟨r.entries, sel2, r.statusCalls⟩

/-- The decision of the `touchend` handler (part_001 lines 343-355):
commit iff `elapsed <= 450 && |dx| >= 70 && |dy| <= 90`, direction `"left"`
(next day) iff `dx < 0`, otherwise snap back.  `elapsed` is in
milliseconds, `dx`/`dy` in page units. -/
def touchendOutcome (elapsed : ℤ) (dx dy : ℚ) : GestureOutcome :=
  if elapsed ≤ 450 ∧ 70 ≤ |dx| ∧ |dy| ≤ 90 then
    .commit (if dx < 0 then .left else .right)
  else .snapBack

/-- The demo seed of part_001 `init` (lines 372-382). -/
def seedEntries (today now : ℤ) : List Entry :=
  [⟨today - 6, 186.2, now⟩, ⟨today - 4, 185.3, now⟩,
   ⟨today - 2, 184.8, now⟩, ⟨today, 184.3, now⟩]

/-- Result of `init`: the entry list, the initial selection and the snapshot
written by `saveEntries` during init, if any. -/
structure InitRun where
  entries : List Entry
  selectedISO : ℤ
  persisted : Option (List Entry)
deriving Repr

/-- `init` (part_001 lines 365-384): load and sort; select today; when the
loaded list is empty, seed four demo entries, sort and persist them. -/
def init (raw : RawSnapshot) (now today : ℤ) : InitRun :=
  if sortEntries (loadEntries raw now) = [] then
    ⟨sortEntries (seedEntries today now), today, some (sortEntries (seedEntries today now))⟩
  else ⟨sortEntries (loadEntries raw now), today, none⟩

end Mass

namespace App

/-! The `src/app.js` (explicit-Save) variant. -/

/-- `shiftSelectedDay` (app.js lines 224-231): blocked future navigation
returns with no state change and no status call; a successful navigation
re-renders and calls `setStatus("")`. -/
def shiftSelectedDayRun (today sel delta : ℤ) : ℤ × List StatusMsg :=
  if today < sel + delta then (sel, []) else (sel + delta, [.cleared])

/-- The `dateInput` change handler (app.js lines 369-383): an empty picker
value or a future date is rejected (`Future dates blocked.`, value
reverted); otherwise the selection is replaced and the status cleared.  The
handler never touches the entry list, which passes through unchanged. -/
def dateInputChangeRun (today : ℤ) (v : Option ℤ) (entries : List Entry)
    (sel : ℤ) : NavRun :=
  match v with
  | none => ⟨entries, sel, [.futureBlocked]⟩
  | some next =>
      if today < next then ⟨entries, sel, [.futureBlocked]⟩
      else ⟨entries, next, [.cleared]⟩

/-- The decision of the `touchend` handler of `addSwipeNavigation` (app.js
lines 278-306): vertical drift over 60 or horizontal distance under 40
returns without navigating; otherwise `dx > 0` slides to the previous day
and `dx < 0` to the next.  No elapsed-time criterion exists in this
variant. -/
def touchendOutcome (dx dy : ℚ) : GestureOutcome :=
  if 60 < |dy| then .snapBack
  else if |dx| < 40 then .snapBack
  else .commit (if 0 < dx then .right else .left)

/-- The demo seed of app.js `init` (lines 354-359) = part_000 `init`
(lines 251-256). -/
def seedEntries (today now : ℤ) : List Entry :=
  [⟨today - 14, 184.6, now⟩, ⟨today - 10, 183.9, now⟩,
   ⟨today - 7, 183.2, now⟩, ⟨today - 3, 182.8, now⟩]

/-- `init` (app.js lines 345-362, storage part; part_000 lines 241-259 is
identical up to the selection): load and sort; select today; when empty,
seed four demo entries and persist them. -/
def init (raw : RawSnapshot) (now today : ℤ) : Mass.InitRun :=
  if sortEntries (loadEntries raw now) = [] then
    ⟨sortEntries (seedEntries today now), today, some (sortEntries (seedEntries today now))⟩
  else ⟨sortEntries (loadEntries raw now), today, none⟩

end App

/-! ## The navigation state machine (claim C3)

The entry points that change the selection among the cited code:
`shiftDay`/`shiftSelectedDay` for swipes (part_001 lines 250-255, app.js
lines 224-231) and the date-picker change handler (app.js lines 369-383).
The session initializes at `today`. -/

/-- A navigation event: swipe to the previous or next day, or a direct
date-picker input (`none` = empty picker value). -/
inductive NavEvent where
  | prev
  | next
  | jump (v : Option ℤ)

/-- The new selection after one navigation event. -/
def navStep (today sel : ℤ) : NavEvent → ℤ
  | .prev => shiftDaySel today sel (-1)
  | .next => shiftDaySel today sel 1
  | .jump v => (App.dateInputChangeRun today v [] sel).selectedISO

/-- The selections reachable in one session: start at `today`, then any
sequence of navigation events. -/
inductive ReachableSel (today : ℤ) : ℤ → Prop
  | init : ReachableSel today today
  | step (sel : ℤ) (e : NavEvent) : ReachableSel today sel →
      ReachableSel today (navStep today sel e)

/-! ## Store invariant and reachable stores (claim C1) -/

/-- The entry list is sorted ascending by `day`. -/
def DaySorted (l : List Entry) : Prop := List.Sorted entryLE l

/-- At most one entry per calendar day. -/
def DayUnique (l : List Entry) : Prop := (l.map fun e => e.entryDate).Nodup

instance (l : List Entry) : Decidable (DayUnique l) := List.nodupDecidable _

/-- The store states reachable in a session: an initial load (either
variant, from an arbitrary repository snapshot) followed by any sequence of
upserts. -/
inductive StoreReach : List Entry → Prop
  | loaded (raw : RawSnapshot) (now today : ℤ) :
      StoreReach (Mass.init raw now today).entries
  | appLoaded (raw : RawSnapshot) (now today : ℤ) :
      StoreReach (App.init raw now today).entries
  | upserted (s : List Entry) (now day : ℤ) (w : ℚ) :
      StoreReach s → StoreReach (upsertEntry now day w s)

/-- Reachable store states whose initial snapshot held no two records for
the same day (in particular, any snapshot the store itself persisted). -/
inductive StoreReachUnique : List Entry → Prop
  | loaded (raw : RawSnapshot) (now today : ℤ)
      (h : DayUnique (loadEntries raw now)) :
      StoreReachUnique (Mass.init raw now today).entries
  | appLoaded (raw : RawSnapshot) (now today : ℤ)
      (h : DayUnique (loadEntries raw now)) :
      StoreReachUnique (App.init raw now today).entries
  | upserted (s : List Entry) (now day : ℤ) (w : ℚ) :
      StoreReachUnique s → StoreReachUnique (upsertEntry now day w s)

/-! ## Chart window builder (part_001 lines 154-193) -/

/-- The trailing 7-day window `[endISO-6 .. endISO]`, oldest first
(part_001 lines 155-156). -/
def weekDays (endDay : ℤ) : List ℤ := (List.range 7).map fun i : ℕ => endDay - 6 + (i : ℤ)

/-- Lookup in the JS `Map` built from a pair list: later pairs overwrite
earlier ones with the same key. -/
def mapGet (pairs : List (ℤ × ℚ)) (k : ℤ) : Option ℚ :=
  pairs.foldl (fun acc p => if p.1 = k then some p.2 else acc) none

/-- `map.has(iso) ? map.get(iso) : null` for the map
`new Map(entries.map(e => [e.entryDate, e.weight]))` (part_001 line 158). -/
def entryMapGet (entries : List Entry) (k : ℤ) : Option ℚ :=
  mapGet (entries.map fun e => (e.entryDate, e.weight)) k

/-- The forward-fill loop of `getWeekSeries` (part_001 lines 160-171):
`last` holds the most recent value seen so far (`null` initially). -/
def weekValuesGo (m : ℤ → Option ℚ) (last : Option ℚ) : List ℤ → List (Option ℚ)
  | [] => []
  | d :: ds =>
      match m d with
      | some w => some w :: weekValuesGo m (some w) ds
      | none => last :: weekValuesGo m last ds

/-- Output of `getWeekSeries`: the window days (labels are their formatted
forms, produced by the excluded rendering layer), the points and the data
extrema. -/
structure WeekSeries where
  days : List ℤ
  values : List (Option ℚ)
  dataMin : ℚ
  dataMax : ℚ
deriving Repr

/-- `getWeekSeries` (part_001 lines 154-179): forward-filled 7-day series;
`dataMin`/`dataMax` are `Math.min(...nums)`/`Math.max(...nums)` of the
non-absent values, defaulting to `0`/`1` on an empty window. -/
def getWeekSeries (entries : List Entry) (endISO : ℤ) : WeekSeries :=
  let days := weekDays endISO
  let values := weekValuesGo (entryMapGet entries) none days
  let nums := values.filterMap id
  let dataMin : ℚ := match nums with | [] => 0 | h :: t => t.foldl min h
  let dataMax : ℚ := match nums with | [] => 1 | h :: t => t.foldl max h
  ⟨days, values, dataMin, dataMax⟩

/-- Axis bounds: `yMin`/`yMax` for the y scale and the tick `stepSize`. -/
structure AxisBounds where
  yMin : ℚ
  yMax : ℚ
  step : ℤ
deriving DecidableEq, Repr

/-- `computeAxisUpperThird` (part_001 lines 181-193). -/
def computeAxisUpperThird (dataMin dataMax : ℚ) : AxisBounds :=
  let range0 := dataMax - dataMin
  let range := if range0 < 1 then 1 else range0
  let yMax := dataMax + range * 0.2
  let yMin := yMax - range * 3.0
  let step := max 1 (round (range / 2))
  ⟨yMin, yMax, step⟩

/-- Written from the spec's words for the refinement claim C6 (spec 4.5):
the point for the `i`-th window day is the value of the most recent day
`<= i` inside the window that has an entry (its weight via `find`), absent
when no such day exists. -/
def specForwardFillValue (entries : List Entry) (endDay : ℤ) (i : ℕ) : Option ℚ :=
  (((weekDays endDay).take (i + 1)).filterMap
    fun d => (findEntry entries d).map fun e => e.weight).getLast?

/-! ## Helper lemmas -/

theorem daySorted_sortEntries (l : List Entry) : DaySorted (sortEntries l) :=
  List.sorted_insertionSort entryLE l

theorem sortEntries_perm (l : List Entry) : List.Perm (sortEntries l) l :=
  List.perm_insertionSort entryLE l

theorem dayUnique_sortEntries {l : List Entry} (h : DayUnique l) :
    DayUnique (sortEntries l) := by
  unfold DayUnique at h ⊢
  exact (((sortEntries_perm l).map fun e => e.entryDate).nodup_iff).mpr h

theorem dayUnique_upsert {s : List Entry} (now day : ℤ) (w : ℚ)
    (h : DayUnique s) : DayUnique (upsertEntry now day w s) := by
  apply dayUnique_sortEntries
  unfold DayUnique at h ⊢
  rw [List.map_append]
  apply List.Nodup.append
  · exact h.sublist (List.Sublist.map _ (List.filter_sublist s))
  · simp
  · intro x hx hy
    simp only [List.mem_map, List.mem_filter, decide_eq_true_eq] at hx
    simp only [List.map_cons, List.map_nil, List.mem_singleton] at hy
    obtain ⟨e, ⟨_, he⟩, rfl⟩ := hx
    subst hy
    exact he rfl

theorem seedMass_dayUnique (t n : ℤ) : DayUnique (Mass.seedEntries t n) := by
  unfold DayUnique Mass.seedEntries
  simp

theorem seedApp_dayUnique (t n : ℤ) : DayUnique (App.seedEntries t n) := by
  unfold DayUnique App.seedEntries
  simp

theorem massInit_entries (raw : RawSnapshot) (now today : ℤ) :
    (Mass.init raw now today).entries =
      if sortEntries (loadEntries raw now) = [] then
        sortEntries (Mass.seedEntries today now)
      else sortEntries (loadEntries raw now) := by
  unfold Mass.init
  split <;> rfl

theorem appInit_entries (raw : RawSnapshot) (now today : ℤ) :
    (App.init raw now today).entries =
      if sortEntries (loadEntries raw now) = [] then
        sortEntries (App.seedEntries today now)
      else sortEntries (loadEntries raw now) := by
  unfold App.init
  split <;> rfl

theorem storeReach_daySorted {s : List Entry} (h : StoreReach s) : DaySorted s := by
  induction h with
  | loaded raw now today =>
      rw [massInit_entries]
      split <;> exact daySorted_sortEntries _
  | appLoaded raw now today =>
      rw [appInit_entries]
      split <;> exact daySorted_sortEntries _
  | upserted s now day w _ _ => exact daySorted_sortEntries _

theorem storeReachUnique_inv {s : List Entry} (h : StoreReachUnique s) :
    DaySorted s ∧ DayUnique s := by
  induction h with
  | loaded raw now today hU =>
      rw [massInit_entries]
      split
      · exact ⟨daySorted_sortEntries _, dayUnique_sortEntries (seedMass_dayUnique _ _)⟩
      · exact ⟨daySorted_sortEntries _, dayUnique_sortEntries hU⟩
  | appLoaded raw now today hU =>
      rw [appInit_entries]
      split
      · exact ⟨daySorted_sortEntries _, dayUnique_sortEntries (seedApp_dayUnique _ _)⟩
      · exact ⟨daySorted_sortEntries _, dayUnique_sortEntries hU⟩
  | upserted s now day w _ ih =>
      exact ⟨daySorted_sortEntries _, dayUnique_upsert now day w ih.2⟩

/-- Claim C1 (amended).  The entry list is sorted ascending by day after
every store operation, for every reachable store state; uniqueness of the
day key additionally holds for every reachable state whose initial snapshot
contained no two records for the same day (in particular for any snapshot
the store itself persisted).  As stated, the claim fails:
`load` does not collapse duplicate days present in the raw snapshot (see
the counterexample). -/
theorem C1_store_invariant :
    (∀ s, StoreReach s → DaySorted s) ∧
    (∀ s, StoreReachUnique s → DaySorted s ∧ DayUnique s) :=
  ⟨fun _ h => storeReach_daySorted h, fun _ h => storeReachUnique_inv h⟩

/-- Witness for C1: a concrete reachable state (load one record for day 5
at timestamps 3, then upsert day 2) is sorted and day-unique. -/
theorem C1_store_invariant_witness :
    DaySorted (upsertEntry 7 2 150 (Mass.init (some (some [⟨some 5, some 100, some 1⟩])) 3 10).entries) ∧
    DayUnique (upsertEntry 7 2 150 (Mass.init (some (some [⟨some 5, some 100, some 1⟩])) 3 10).entries) :=
  C1_store_invariant.2 _
    (.upserted _ 7 2 150 (.loaded (some (some [⟨some 5, some 100, some 1⟩])) 3 10 (by decide)))

/-- Counterexample to C1 as stated: a repository snapshot that holds two
records for day 5 loads into a store with two entries for day 5 — the
`at most one entry per calendar day` half of the invariant does not hold
after `load`. -/
theorem C1_load_duplicate_counterexample :
    ¬ DayUnique (Mass.init
      (some (some [⟨some 5, some 100, some 1⟩, ⟨some 5, some 101, some 2⟩])) 3 10).entries := by
  decide

/-! ## Claim C2: upsert twice on the same day -/

theorem filter_ne_upsert_perm (now day : ℤ) (w : ℚ) (s : List Entry) :
    List.Perm ((upsertEntry now day w s).filter fun e => e.entryDate ≠ day)
      (s.filter fun e => e.entryDate ≠ day) := by
  have hp := (sortEntries_perm
    ((s.filter fun e => e.entryDate ≠ day) ++ [⟨day, w, now⟩])).filter
      (fun e => decide (e.entryDate ≠ day))
  rw [List.filter_append, List.filter_filter] at hp
  simpa [upsertEntry] using hp

theorem upsert_length (now day : ℤ) (w : ℚ) (s : List Entry) :
    (upsertEntry now day w s).length = (s.filter fun e => e.entryDate ≠ day).length + 1 := by
  unfold upsertEntry
  rw [(sortEntries_perm _).length_eq, List.length_append]
  rfl

theorem filter_eq_upsert (now day : ℤ) (w : ℚ) (s : List Entry) :
    (upsertEntry now day w s).filter (fun e => e.entryDate = day) = [⟨day, w, now⟩] := by
  have hp := (sortEntries_perm
    ((s.filter fun e => e.entryDate ≠ day) ++ [⟨day, w, now⟩])).filter
      (fun e => decide (e.entryDate = day))
  rw [List.filter_append, List.filter_filter] at hp
  simp at hp
  simpa [upsertEntry] using hp

/-- Claim C2 (confirmed).  For every store, day `d` and weights `w1`, `w2`:
after `upsert(d, w1)` then `upsert(d, w2)` (at `Date.now()` instants `n1`,
`n2`) the store holds exactly one entry for day `d`; that entry carries
weight `w2` and the refreshed timestamp `n2`; and the store size equals the
size after the first upsert (overwrite, not append). -/
theorem C2_upsert_overwrite (s : List Entry) (d : ℤ) (w1 w2 : ℚ) (n1 n2 : ℤ) :
    (upsertEntry n2 d w2 (upsertEntry n1 d w1 s)).filter (fun e => e.entryDate = d) =
      [⟨d, w2, n2⟩] ∧
    (upsertEntry n2 d w2 (upsertEntry n1 d w1 s)).length =
      (upsertEntry n1 d w1 s).length := by
  refine ⟨filter_eq_upsert n2 d w2 _, ?_⟩
  rw [upsert_length, upsert_length,
    (filter_ne_upsert_perm n1 d w1 s).length_eq]

/-! ## Claim C3: the selection never moves into the future -/

theorem shiftDaySel_le (today sel delta : ℤ) (h : sel ≤ today) :
    shiftDaySel today sel delta ≤ today := by
  unfold shiftDaySel
  split
  · exact h
  · omega

theorem navStep_le (today sel : ℤ) (e : NavEvent) (h : sel ≤ today) :
    navStep today sel e ≤ today := by
  cases e with
  | prev => exact shiftDaySel_le today sel (-1) h
  | next => exact shiftDaySel_le today sel 1 h
  | jump v =>
      cases v with
      | none => exact h
      | some next =>
          unfold navStep App.dateInputChangeRun
          simp only
          split
          · exact h
          · show next ≤ today
            omega

/-- Claim C3 (confirmed).  In every reachable state of the navigation state
machine, the selected day is never strictly greater than the current day:
the session initializes at `today`, and swiping to the previous or next day
(`shiftDay` / `shiftSelectedDay`) and direct date-picker input (the
`dateInput` change handler) all preserve the bound. -/
theorem C3_no_future_selection (today sel : ℤ) (h : ReachableSel today sel) :
    sel ≤ today := by
  induction h with
  | init => exact le_refl today
  | step sel e _ ih => exact navStep_le today sel e ih

/-- Witness for C3: starting at day 100, one swipe to the previous day and
one attempted swipe to the next day land on day 100, within the bound. -/
theorem C3_no_future_selection_witness :
    navStep 100 (navStep 100 100 .prev) .next ≤ 100 :=
  C3_no_future_selection 100 _
    (.step _ .next (.step _ .prev .init))

/-! ## Claims C8 and C4: blocked NavigateNext, auto-save on navigate -/

theorem autoSave_quiet_silent (now sel : ℤ) (staged : String) (entries : List Entry) :
    (Mass.autoSaveIfValid true now sel staged entries).statusCalls = [] := by
  unfold Mass.autoSaveIfValid
  cases parseWeight staged <;> simp

/-- Claim C8 (amended).  When the selected day is today, NavigateNext is
rejected — the selection is unchanged — but silently: the swipe path
(part_001 `commitSwipe`/`shiftDay` and app.js `shiftSelectedDay`) emits no
status call at all, so no user-visible blocked signal distinct from a
silent no-op exists there.  (The only `Future dates blocked.` signals in
the code are the date-picker change handler and the explicit Save path.) -/
theorem C8_next_at_today_silently_rejected (today now : ℤ) (staged : String)
    (entries : List Entry) :
    (Mass.commitSwipe today now .left staged entries today).selectedISO = today ∧
    (Mass.commitSwipe today now .left staged entries today).statusCalls = [] ∧
    (App.shiftSelectedDayRun today today 1).1 = today ∧
    (App.shiftSelectedDayRun today today 1).2 = [] := by
  refine ⟨?_, ?_, ?_, ?_⟩
  · show shiftDaySel today today (if SwipeDir.left = SwipeDir.right then -1 else 1) = today
    rw [if_neg (by decide : ¬ (SwipeDir.left = SwipeDir.right))]
    unfold shiftDaySel
    split
    · rfl
    · omega
  · simp [Mass.commitSwipe, autoSave_quiet_silent]
  · simp only [App.shiftSelectedDayRun]
    split
    · rfl
    · omega
  · simp only [App.shiftSelectedDayRun]
    split
    · rfl
    · omega

/-- Counterexample to C8 as stated: at `today = 0`, a NavigateNext swipe
commit leaves the selection unchanged AND makes no status call — the
rejection is a silent no-op, so no user-visible blocked signal is raised. -/
theorem C8_no_blocked_signal_counterexample :
    (Mass.commitSwipe 0 0 .left "" [] 0).selectedISO = 0 ∧
    (Mass.commitSwipe 0 0 .left "" [] 0).statusCalls = [] ∧
    (App.shiftSelectedDayRun 0 0 1).1 = 0 ∧
    (App.shiftSelectedDayRun 0 0 1).2 = [] := by
  decide

/-- Claim C4 (amended).  In the auto-save variant (part_001), a swipe
commit first runs the staged weight text of the day being left through the
validating parser: a valid value is upserted for that (old) day, an invalid
or empty value changes nothing and emits no status message, and the
selection outcome is the same whatever the staged text was — navigation
proceeds regardless. -/
theorem C4_swipe_autosaves_day_left (today now : ℤ) (dir : SwipeDir) (staged : String)
    (entries : List Entry) (sel : ℤ) :
    (∀ w, parseWeight staged = some w →
        (Mass.commitSwipe today now dir staged entries sel).entries =
          upsertEntry now sel w entries) ∧
    (parseWeight staged = none →
        (Mass.commitSwipe today now dir staged entries sel).entries = entries ∧
        (Mass.commitSwipe today now dir staged entries sel).statusCalls = []) ∧
    (∀ staged2 : String,
        (Mass.commitSwipe today now dir staged2 entries sel).selectedISO =
          (Mass.commitSwipe today now dir staged entries sel).selectedISO) := by
  refine ⟨?_, ?_, ?_⟩
  · intro w hw
    simp [Mass.commitSwipe, Mass.autoSaveIfValid, hw]
  · intro hw
    simp [Mass.commitSwipe, Mass.autoSaveIfValid, hw]
  · intro staged2
    simp [Mass.commitSwipe]

/-- Witness for C4: with empty staged text, a swipe from day 5 (today 10)
saves nothing, emits nothing, and still navigates to day 6. -/
theorem C4_swipe_autosaves_day_left_witness :
    ((Mass.commitSwipe 10 1 .left "" [] 5).entries = [] ∧
      (Mass.commitSwipe 10 1 .left "" [] 5).statusCalls = []) ∧
    (Mass.commitSwipe 10 1 .left "" [] 5).selectedISO = 6 :=
  ⟨(C4_swipe_autosaves_day_left 10 1 .left "" [] 5).2.1 (by decide), by decide⟩

/-- Counterexample to C4 as stated: the JumpTo entry point (the app.js
date-picker change handler) successfully changes the selection from day 0
to day 5 while a perfectly valid staged text `"180"` is present, and the
entry store passes through untouched — the upsert that the claim requires
(which would have changed the store) never happens. -/
theorem C4_jump_no_autosave_counterexample :
    (App.dateInputChangeRun 10 (some 5) [⟨0, 100, 0⟩] 0).selectedISO = 5 ∧
    (App.dateInputChangeRun 10 (some 5) [⟨0, 100, 0⟩] 0).entries = [⟨0, 100, 0⟩] ∧
    parseWeight "180" = some 180 ∧
    upsertEntry 1 0 180 [⟨0, 100, 0⟩] ≠ [⟨0, 100, 0⟩] := by
  refine ⟨by decide, by decide, ?_, by decide⟩
  have h : jsNumberP (normalizeWeightText "180") = .dec false ⟨180, 0, 0, false, 0⟩ := by decide
  have hne : normalizeWeightText "180" ≠ [] := by decide
  rw [parseWeight, if_neg hne, jsNumber, h]
  norm_num [decValue, round_eq]

/-! ## Claim C9: gesture recognizer commit criteria -/

/-- Claim C9 (amended, for the part_001 recognizer).  A completed gesture
commits a navigation iff `elapsed <= 450`, `|dx| >= 70` and `|dy| <= 90`;
a commit goes to the previous day (`right`) iff `dx > 0` and to the next
day (`left`) iff `dx < 0`; otherwise it snaps back.  In particular
`dx = -80, dy = 5` commits NavigateNext at 200 ms and snaps back at
600 ms.  (The app.js recognizer differs — see the counterexample.) -/
theorem C9_swipe_commit_criteria :
    (∀ (t : ℤ) (dx dy : ℚ),
      (Mass.touchendOutcome t dx dy ≠ .snapBack ↔ (t ≤ 450 ∧ 70 ≤ |dx| ∧ |dy| ≤ 90)) ∧
      (Mass.touchendOutcome t dx dy = .commit .right ↔
        ((t ≤ 450 ∧ 70 ≤ |dx| ∧ |dy| ≤ 90) ∧ 0 < dx)) ∧
      (Mass.touchendOutcome t dx dy = .commit .left ↔
        ((t ≤ 450 ∧ 70 ≤ |dx| ∧ |dy| ≤ 90) ∧ dx < 0))) ∧
    Mass.touchendOutcome 200 (-80) 5 = .commit .left ∧
    Mass.touchendOutcome 600 (-80) 5 = .snapBack := by
  refine ⟨?_, by decide, by decide⟩
  intro t dx dy
  unfold Mass.touchendOutcome
  by_cases hc : t ≤ 450 ∧ 70 ≤ |dx| ∧ |dy| ≤ 90
  · rw [if_pos hc]
    have hdx : dx ≠ 0 := by
      intro h0
      rw [h0] at hc
      simp only [abs_zero] at hc
      exact absurd hc.2.1 (by norm_num)
    by_cases hneg : dx < 0
    · rw [if_pos hneg]
      refine ⟨by simp [hc], ?_, by simp [hc, hneg]⟩
      constructor
      · intro h
        exact absurd h (by decide)
      · rintro ⟨-, hpos⟩
        exact absurd hpos (not_lt.mpr hneg.le)
    · have hpos : 0 < dx := lt_of_le_of_ne (not_lt.mp hneg) (Ne.symm hdx)
      rw [if_neg hneg]
      refine ⟨by simp [hc], by simp [hc, hpos], ?_⟩
      constructor
      · intro h
        exact absurd h (by decide)
      · rintro ⟨-, hlt⟩
        exact absurd hlt hneg
  · rw [if_neg hc]
    refine ⟨by simp [hc], ?_, ?_⟩
    · exact ⟨fun h => absurd h (by decide), fun h => absurd h.1 hc⟩
    · exact ⟨fun h => absurd h (by decide), fun h => absurd h.1 hc⟩

/-- Counterexample to C9 as stated: the app.js recognizer
(`addSwipeNavigation`) has no elapsed-time criterion and uses thresholds
40/60, so the gesture `dx = -80, dy = 5` commits NavigateNext whatever the
elapsed time (600 ms included) — it does not snap back as the claim
requires. -/
theorem C9_app_recognizer_counterexample :
    App.touchendOutcome (-80) 5 = .commit .left := by
  decide

/-! ## Claim C5: the weight parser -/

/-- Claim C5 (confirmed).  `parseWeight` is a total function (never
throws); after trimming and normalizing the first comma to a period it
returns the explicit invalid result `none` iff the normalized text is
empty, is not parseable as a number (NaN), is non-finite, or parses to a
value `<= 0` or `> 1400`; on any other input it returns the parsed value
rounded to one decimal place by `Math.round(n*10)/10` (`round` = half
toward positive infinity, i.e. half away from zero on the positive range
admitted here); the documented examples evaluate accordingly, with
`"  179.95  "` rounding up to `180`. -/
theorem C5_parse_weight :
    (∀ raw : String,
      parseWeight raw = none ↔
        (normalizeWeightText raw = [] ∨
         jsNumber (normalizeWeightText raw) = .nan ∨
         jsNumber (normalizeWeightText raw) = .posInf ∨
         jsNumber (normalizeWeightText raw) = .negInf ∨
         ∃ q, jsNumber (normalizeWeightText raw) = .fin q ∧ (q ≤ 0 ∨ 1400 < q))) ∧
    (∀ (raw : String) (q : ℚ), normalizeWeightText raw ≠ [] →
      jsNumber (normalizeWeightText raw) = .fin q → 0 < q → q ≤ 1400 →
      parseWeight raw = some ((round (q * 10) : ℤ) / 10 : ℚ)) ∧
    parseWeight "180" = some 180 ∧
    parseWeight "180,2" = some (1802 / 10) ∧
    parseWeight "0" = none ∧
    parseWeight "1401" = none ∧
    parseWeight "  179.95  " = some 180 := by
  refine ⟨?_, ?_, ?_, ?_, ?_, ?_, ?_⟩
  · intro raw
    rw [parseWeight]
    by_cases hne : normalizeWeightText raw = []
    · rw [if_pos hne]
      simp [hne]
    · rw [if_neg hne]
      cases hj : jsNumber (normalizeWeightText raw) with
      | nan => simp [hne, hj]
      | posInf => simp [hne, hj]
      | negInf => simp [hne, hj]
      | fin q =>
          simp only [hne, hj, false_or, JSNum.fin.injEq]
          split
          next hq =>
            refine iff_of_true rfl (Or.inr (Or.inr (Or.inr ⟨q, rfl, hq⟩)))
          next hq =>
            refine iff_of_false (by simp) ?_
            rintro (h | h | h | ⟨q', hq', hb⟩)
            · injection h
            · injection h
            · injection h
            · exact hq (hq' ▸ hb)
  · intro raw q hne hj h0 h14
    rw [parseWeight, if_neg hne, hj]
    dsimp only
    rw [if_neg (by push_neg; exact ⟨h0, h14⟩)]
  · have h : jsNumberP (normalizeWeightText "180") = .dec false ⟨180, 0, 0, false, 0⟩ := by
      decide
    have hne : normalizeWeightText "180" ≠ [] := by decide
    rw [parseWeight, if_neg hne, jsNumber, h]
    norm_num [decValue, round_eq]
  · have h : jsNumberP (normalizeWeightText "180,2") = .dec false ⟨180, 2, 1, false, 0⟩ := by
      decide
    have hne : normalizeWeightText "180,2" ≠ [] := by decide
    rw [parseWeight, if_neg hne, jsNumber, h]
    norm_num [decValue, round_eq]
  · have h : jsNumberP (normalizeWeightText "0") = .dec false ⟨0, 0, 0, false, 0⟩ := by
      decide
    have hne : normalizeWeightText "0" ≠ [] := by decide
    rw [parseWeight, if_neg hne, jsNumber, h]
    norm_num [decValue]
  · have h : jsNumberP (normalizeWeightText "1401") = .dec false ⟨1401, 0, 0, false, 0⟩ := by
      decide
    have hne : normalizeWeightText "1401" ≠ [] := by decide
    rw [parseWeight, if_neg hne, jsNumber, h]
    norm_num [decValue]
  · have h : jsNumberP (normalizeWeightText "  179.95  ") = .dec false ⟨179, 95, 2, false, 0⟩ := by
      decide
    have hne : normalizeWeightText "  179.95  " ≠ [] := by decide
    rw [parseWeight, if_neg hne, jsNumber, h]
    norm_num [decValue, round_eq]

/-- Witness for C5: the general valid-input clause applied to `"7"`. -/
theorem C5_parse_weight_witness :
    parseWeight "7" = some ((round ((7 : ℚ) * 10) : ℤ) / 10 : ℚ) :=
  C5_parse_weight.2.1 "7" 7 (by decide)
    (by
      rw [jsNumber, (by decide : jsNumberP (normalizeWeightText "7") =
        .dec false ⟨7, 0, 0, false, 0⟩)]
      norm_num [decValue])
    (by norm_num) (by norm_num)

/-! ## Chart window builder: lemmas -/

theorem getWeekSeries_values (entries : List Entry) (endDay : ℤ) :
    (getWeekSeries entries endDay).values =
      weekValuesGo (entryMapGet entries) none (weekDays endDay) := rfl

theorem getWeekSeries_days (entries : List Entry) (endDay : ℤ) :
    (getWeekSeries entries endDay).days = weekDays endDay := rfl

theorem getWeekSeries_dataMin (entries : List Entry) (endDay : ℤ) :
    (getWeekSeries entries endDay).dataMin =
      match (getWeekSeries entries endDay).values.filterMap id with
      | [] => (0 : ℚ)
      | h :: t => t.foldl min h := rfl

theorem getWeekSeries_dataMax (entries : List Entry) (endDay : ℤ) :
    (getWeekSeries entries endDay).dataMax =
      match (getWeekSeries entries endDay).values.filterMap id with
      | [] => (1 : ℚ)
      | h :: t => t.foldl max h := rfl

theorem weekDays_eq (endDay : ℤ) :
    weekDays endDay =
      [endDay - 6, endDay - 5, endDay - 4, endDay - 3, endDay - 2, endDay - 1, endDay] := by
  unfold weekDays
  rw [(by decide : List.range 7 = [0, 1, 2, 3, 4, 5, 6])]
  simp only [List.map_cons, List.map_nil, List.cons.injEq]
  refine ⟨by omega, by omega, by omega, by omega, by omega, by omega, by omega, trivial⟩

theorem weekValuesGo_length (m : ℤ → Option ℚ) :
    ∀ (ds : List ℤ) (acc : Option ℚ), (weekValuesGo m acc ds).length = ds.length := by
  intro ds
  induction ds with
  | nil => intro acc; rfl
  | cons d t ih =>
      intro acc
      cases hm : m d <;> simp [weekValuesGo, hm, ih]

theorem getLast?_cons_or (a : α) (l : List α) :
    (a :: l).getLast? = l.getLast?.or (some a) := by
  cases l with
  | nil => rfl
  | cons b t =>
      rw [List.getLast?_cons_cons, List.getLast?_eq_getLast (b :: t) (by simp)]
      rfl

theorem weekValuesGo_getElem? (m : ℤ → Option ℚ) :
    ∀ (ds : List ℤ) (acc : Option ℚ) (i : ℕ), i < ds.length →
      (weekValuesGo m acc ds)[i]? =
        some ((((ds.take (i + 1)).filterMap m).getLast?).or acc) := by
  intro ds
  induction ds with
  | nil =>
      intro acc i h
      simp at h
  | cons d t ih =>
      intro acc i h
      have hgo : weekValuesGo m acc (d :: t) =
          ((m d).or acc) :: weekValuesGo m ((m d).or acc) t := by
        cases hm : m d <;> simp [weekValuesGo, hm]
      rw [hgo]
      cases i with
      | zero =>
          rw [List.getElem?_cons_zero]
          congr 1
          rw [List.take_succ_cons, List.take_zero]
          cases hm : m d
          · rw [List.filterMap_cons_none hm]
            rfl
          · rw [List.filterMap_cons_some hm]
            rfl
      | succ i =>
          have h' : i < t.length := by simpa using h
          rw [List.getElem?_cons_succ, ih _ i h']
          congr 1
          rw [List.take_succ_cons]
          cases hm : m d
          · rw [List.filterMap_cons_none hm, Option.none_or]
          · rw [List.filterMap_cons_some hm, getLast?_cons_or, Option.or_assoc]

theorem mapGet_foldl_acc (k : ℤ) (ps : List (ℤ × ℚ)) :
    ∀ acc, ps.foldl (fun acc p => if p.1 = k then some p.2 else acc) acc =
      (mapGet ps k).or acc := by
  induction ps with
  | nil => intro acc; rfl
  | cons q ps ih =>
      intro acc
      rw [List.foldl_cons, ih]
      conv_rhs => rw [mapGet, List.foldl_cons, ih]
      rw [Option.or_assoc]
      congr 1
      by_cases hc : q.1 = k
      · rw [if_pos hc, if_pos hc]
        rfl
      · rw [if_neg hc, if_neg hc]
        rfl

theorem mapGet_cons (q : ℤ × ℚ) (ps : List (ℤ × ℚ)) (k : ℤ) :
    mapGet (q :: ps) k = (mapGet ps k).or (if q.1 = k then some q.2 else none) := by
  rw [mapGet, List.foldl_cons, mapGet_foldl_acc]

theorem entryMapGet_eq_find {entries : List Entry} (h : DayUnique entries) (k : ℤ) :
    entryMapGet entries k = (findEntry entries k).map fun e => e.weight := by
  induction entries with
  | nil => rfl
  | cons e t ih =>
      have hhead : e.entryDate ∉ t.map fun x => x.entryDate :=
        (List.nodup_cons.mp h).1
      have ht : DayUnique t := (List.nodup_cons.mp h).2
      rw [entryMapGet, List.map_cons, mapGet_cons]
      have ihw : entryMapGet t k = (findEntry t k).map fun e => e.weight := ih ht
      rw [entryMapGet] at ihw
      rw [ihw]
      conv_rhs => rw [findEntry]
      by_cases hc : e.entryDate = k
      · have hnone : findEntry t k = none := by
          rw [findEntry, List.find?_eq_none]
          intro x hx
          simp only [decide_eq_true_eq]
          intro hxk
          exact hhead (List.mem_map.mpr ⟨x, hx, by rw [hxk, hc]⟩)
        rw [List.find?_cons_of_pos _ (by simpa using hc),
          if_pos (show (e.entryDate, e.weight).1 = k from hc), hnone]
        rfl
      · rw [List.find?_cons_of_neg _ (by simpa using hc),
          if_neg (show ¬ (e.entryDate, e.weight).1 = k from hc), Option.or_none, findEntry]

theorem entryMapGet_eq_none {entries : List Entry} {k : ℤ}
    (h : ∀ e ∈ entries, e.entryDate ≠ k) : entryMapGet entries k = none := by
  induction entries with
  | nil => rfl
  | cons e t ih =>
      rw [entryMapGet, List.map_cons, mapGet_cons, if_neg (h e (by simp)), Option.or_none]
      exact ih fun x hx => h x (by simp [hx])

theorem weekValuesGo_all_none (m : ℤ → Option ℚ) :
    ∀ (ds : List ℤ), (∀ d ∈ ds, m d = none) → ∀ acc,
      weekValuesGo m acc ds = List.replicate ds.length acc := by
  intro ds
  induction ds with
  | nil => intro _ acc; rfl
  | cons d t ih =>
      intro h acc
      rw [List.length_cons, List.replicate_succ]
      have hm : m d = none := h d (by simp)
      simp only [weekValuesGo, hm]
      rw [ih (fun x hx => h x (by simp [hx])) acc]

theorem foldl_min_le_init (t : List ℚ) : ∀ h : ℚ, t.foldl min h ≤ h := by
  induction t with
  | nil => intro h; exact le_refl h
  | cons a t ih => intro h; exact le_trans (ih (min h a)) (min_le_left h a)

theorem foldl_min_le (t : List ℚ) : ∀ (h x : ℚ), x ∈ t → t.foldl min h ≤ x := by
  induction t with
  | nil =>
      intro h x hx
      simp at hx
  | cons a t ih =>
      intro h x hx
      rw [List.foldl_cons]
      rcases List.mem_cons.mp hx with rfl | hx
      · exact le_trans (foldl_min_le_init t (min h x)) (min_le_right h x)
      · exact ih (min h a) x hx

theorem foldl_min_mem (t : List ℚ) : ∀ h : ℚ, t.foldl min h ∈ h :: t := by
  induction t with
  | nil => intro h; simp
  | cons a t ih =>
      intro h
      rw [List.foldl_cons]
      rcases List.mem_cons.mp (ih (min h a)) with heq | hmem
      · rcases min_choice h a with h1 | h1
        · rw [heq, h1]; simp
        · rw [heq, h1]; simp
      · simp only [List.mem_cons]
        right
        right
        exact hmem

theorem le_foldl_max_init (t : List ℚ) : ∀ h : ℚ, h ≤ t.foldl max h := by
  induction t with
  | nil => intro h; exact le_refl h
  | cons a t ih => intro h; exact le_trans (le_max_left h a) (ih (max h a))

theorem le_foldl_max (t : List ℚ) : ∀ (h x : ℚ), x ∈ t → x ≤ t.foldl max h := by
  induction t with
  | nil =>
      intro h x hx
      simp at hx
  | cons a t ih =>
      intro h x hx
      rw [List.foldl_cons]
      rcases List.mem_cons.mp hx with rfl | hx
      · exact le_trans (le_max_right h x) (le_foldl_max_init t (max h x))
      · exact ih (max h a) x hx

theorem foldl_max_mem (t : List ℚ) : ∀ h : ℚ, t.foldl max h ∈ h :: t := by
  induction t with
  | nil => intro h; simp
  | cons a t ih =>
      intro h
      rw [List.foldl_cons]
      rcases List.mem_cons.mp (ih (max h a)) with heq | hmem
      · rcases max_choice h a with h1 | h1
        · rw [heq, h1]; simp
        · rw [heq, h1]; simp
      · simp only [List.mem_cons]
        right
        right
        exact hmem

/-! ## Claim C6: the 7-day forward-filled window -/

/-- Claim C6 (confirmed).  For every store and selected day the window
builder produces exactly 7 points, one per day of
`[selectedDay-6 .. selectedDay]` in chronological order; with unique days
in the store, the `i`-th point equals the weight of the most recent day
`<= i` of the window that has an entry (forward-fill), and is absent when
no such day exists (leading gap); in particular a window whose only entry
falls on its 3rd day has points 1-2 absent and points 3-7 equal to that
entry's weight. -/
theorem C6_week_window :
    (∀ (entries : List Entry) (endDay : ℤ),
      (getWeekSeries entries endDay).days =
        [endDay - 6, endDay - 5, endDay - 4, endDay - 3, endDay - 2, endDay - 1, endDay] ∧
      (getWeekSeries entries endDay).values.length = 7) ∧
    (∀ (entries : List Entry) (endDay : ℤ), DayUnique entries → ∀ i : ℕ, i < 7 →
      (getWeekSeries entries endDay).values[i]? =
        some (specForwardFillValue entries endDay i)) ∧
    (∀ (endDay : ℤ) (w : ℚ) (c : ℤ),
      (getWeekSeries [⟨endDay - 4, w, c⟩] endDay).values =
        [none, none, some w, some w, some w, some w, some w]) := by
  refine ⟨?_, ?_, ?_⟩
  · intro entries endDay
    refine ⟨by rw [getWeekSeries_days, weekDays_eq], ?_⟩
    rw [getWeekSeries_values, weekValuesGo_length, weekDays_eq]
    rfl
  · intro entries endDay hU i hi
    have hlen : (weekDays endDay).length = 7 := by rw [weekDays_eq]; rfl
    rw [getWeekSeries_values,
      weekValuesGo_getElem? (entryMapGet entries) (weekDays endDay) none i (by rw [hlen]; exact hi),
      Option.or_none]
    congr 1
    unfold specForwardFillValue
    congr 1
    rw [funext fun d => entryMapGet_eq_find hU d]
  · intro endDay w c
    have hm : ∀ d : ℤ, entryMapGet [⟨endDay - 4, w, c⟩] d =
        if endDay - 4 = d then some w else none := by
      intro d
      rw [entryMapGet, List.map_cons, List.map_nil, mapGet_cons]
      rfl
    rw [getWeekSeries_values, weekDays_eq]
    simp only [weekValuesGo, hm,
      if_neg (show ¬ endDay - 4 = endDay - 6 by omega),
      if_neg (show ¬ endDay - 4 = endDay - 5 by omega),
      if_pos (show endDay - 4 = endDay - 4 from rfl),
      if_neg (show ¬ endDay - 4 = endDay - 3 by omega),
      if_neg (show ¬ endDay - 4 = endDay - 2 by omega),
      if_neg (show ¬ endDay - 4 = endDay - 1 by omega),
      if_neg (show ¬ endDay - 4 = endDay by omega)]
    simp

/-- Witness for C6: the forward-fill clause evaluated on the concrete
store with single entry at day 2 and window ending at day 6: the point of
index 2 (window day 2) is that entry's weight. -/
theorem C6_week_window_witness :
    (getWeekSeries [⟨2, 150, 0⟩] 6).values[2]? =
      some (specForwardFillValue [⟨2, 150, 0⟩] 6 2) :=
  C6_week_window.2.1 [⟨2, 150, 0⟩] 6 (by decide) 2 (by decide)

/-! ## Claim C7: axis bounds -/

/-- Claim C7 (confirmed).  With `range = max(dataMax - dataMin, 1)`, the
axis builder satisfies `yMax = dataMax + 0.2*range`,
`yMin = yMax - 3.0*range` and `step = max(1, round(range/2))`; for every
window, `dataMin`/`dataMax` are the minimum/maximum of the non-absent
values; and a window with no entries anywhere yields 7 absent points and
the defaults `dataMin = 0`, `dataMax = 1`, hence `range = 1`. -/
theorem C7_axis_bounds :
    (∀ dataMin dataMax : ℚ,
      (computeAxisUpperThird dataMin dataMax).yMax =
        dataMax + 0.2 * max (dataMax - dataMin) 1 ∧
      (computeAxisUpperThird dataMin dataMax).yMin =
        (computeAxisUpperThird dataMin dataMax).yMax - 3.0 * max (dataMax - dataMin) 1 ∧
      (computeAxisUpperThird dataMin dataMax).step =
        max 1 (round (max (dataMax - dataMin) 1 / 2))) ∧
    (∀ (entries : List Entry) (endDay : ℤ),
      (getWeekSeries entries endDay).values.filterMap id ≠ [] →
        ((getWeekSeries entries endDay).dataMin ∈
            (getWeekSeries entries endDay).values.filterMap id ∧
          ∀ x ∈ (getWeekSeries entries endDay).values.filterMap id,
            (getWeekSeries entries endDay).dataMin ≤ x) ∧
        ((getWeekSeries entries endDay).dataMax ∈
            (getWeekSeries entries endDay).values.filterMap id ∧
          ∀ x ∈ (getWeekSeries entries endDay).values.filterMap id,
            x ≤ (getWeekSeries entries endDay).dataMax)) ∧
    (∀ (entries : List Entry) (endDay : ℤ),
      (∀ e ∈ entries, e.entryDate ∉ weekDays endDay) →
        (getWeekSeries entries endDay).values = List.replicate 7 none ∧
        (getWeekSeries entries endDay).dataMin = 0 ∧
        (getWeekSeries entries endDay).dataMax = 1 ∧
        max ((getWeekSeries entries endDay).dataMax -
          (getWeekSeries entries endDay).dataMin) 1 = 1) := by
  refine ⟨?_, ?_, ?_⟩
  · intro dataMin dataMax
    have hrange : (if dataMax - dataMin < 1 then (1 : ℚ) else dataMax - dataMin) =
        max (dataMax - dataMin) 1 := by
      rcases lt_or_le (dataMax - dataMin) 1 with h | h
      · rw [if_pos h, max_eq_right h.le]
      · rw [if_neg (not_lt.mpr h), max_eq_left h]
    refine ⟨?_, ?_, ?_⟩
    · show dataMax + (if dataMax - dataMin < 1 then (1 : ℚ) else dataMax - dataMin) * 0.2 =
        dataMax + 0.2 * max (dataMax - dataMin) 1
      rw [hrange, mul_comm]
    · show dataMax + (if dataMax - dataMin < 1 then (1 : ℚ) else dataMax - dataMin) * 0.2 -
          (if dataMax - dataMin < 1 then (1 : ℚ) else dataMax - dataMin) * 3.0 =
        (computeAxisUpperThird dataMin dataMax).yMax - 3.0 * max (dataMax - dataMin) 1
      show dataMax + (if dataMax - dataMin < 1 then (1 : ℚ) else dataMax - dataMin) * 0.2 -
          (if dataMax - dataMin < 1 then (1 : ℚ) else dataMax - dataMin) * 3.0 =
        dataMax + (if dataMax - dataMin < 1 then (1 : ℚ) else dataMax - dataMin) * 0.2 -
          3.0 * max (dataMax - dataMin) 1
      rw [hrange]
      ring
    · show max 1 (round ((if dataMax - dataMin < 1 then (1 : ℚ) else dataMax - dataMin) / 2)) =
        max 1 (round (max (dataMax - dataMin) 1 / 2))
      rw [hrange]
  · intro entries endDay hne
    rcases hn : (getWeekSeries entries endDay).values.filterMap id with _ | ⟨h, t⟩
    · exact absurd hn hne
    · have hmin : (getWeekSeries entries endDay).dataMin = t.foldl min h := by
        rw [getWeekSeries_dataMin, hn]
      have hmax : (getWeekSeries entries endDay).dataMax = t.foldl max h := by
        rw [getWeekSeries_dataMax, hn]
      rw [hmin, hmax]
      refine ⟨⟨foldl_min_mem t h, ?_⟩, ⟨foldl_max_mem t h, ?_⟩⟩
      · intro x hx
        rcases List.mem_cons.mp hx with rfl | hx
        · exact foldl_min_le_init t x
        · exact foldl_min_le t h x hx
      · intro x hx
        rcases List.mem_cons.mp hx with rfl | hx
        · exact le_foldl_max_init t x
        · exact le_foldl_max t h x hx
  · intro entries endDay hno
    have hval : (getWeekSeries entries endDay).values = List.replicate 7 none := by
      rw [getWeekSeries_values,
        weekValuesGo_all_none (entryMapGet entries) (weekDays endDay)
          (fun d hd => entryMapGet_eq_none fun e he hk => hno e he (by rwa [hk])) none]
      rw [weekDays_eq]
      rfl
    have hnums : (getWeekSeries entries endDay).values.filterMap id = [] := by
      rw [hval]
      rfl
    refine ⟨hval, ?_, ?_, ?_⟩
    · rw [getWeekSeries_dataMin, hnums]
    · rw [getWeekSeries_dataMax, hnums]
    · rw [getWeekSeries_dataMax, getWeekSeries_dataMin, hnums]
      show max ((1 : ℚ) - 0) 1 = 1
      norm_num

/-- Witness for C7: the empty store has an all-absent window with default
extrema and unit range. -/
theorem C7_axis_bounds_witness :
    (getWeekSeries [] 0).values = List.replicate 7 none ∧
    (getWeekSeries [] 0).dataMin = 0 ∧
    (getWeekSeries [] 0).dataMax = 1 ∧
    max ((getWeekSeries [] 0).dataMax - (getWeekSeries [] 0).dataMin) 1 = 1 :=
  C7_axis_bounds.2.2 [] 0 (by simp)

/-! ## Claim C10: demo seeding at init -/

theorem sortEntries_seedMass (t n : ℤ) :
    sortEntries (Mass.seedEntries t n) = Mass.seedEntries t n := by
  refine List.Sorted.insertionSort_eq ?_
  unfold Mass.seedEntries
  refine List.Sorted.cons (show (t - 6 : ℤ) ≤ t - 4 by omega)
    (List.Sorted.cons (show (t - 4 : ℤ) ≤ t - 2 by omega)
      (List.Sorted.cons (show (t - 2 : ℤ) ≤ t by omega)
        (List.sorted_singleton _)))

theorem sortEntries_seedApp (t n : ℤ) :
    sortEntries (App.seedEntries t n) = App.seedEntries t n := by
  refine List.Sorted.insertionSort_eq ?_
  unfold App.seedEntries
  refine List.Sorted.cons (show (t - 14 : ℤ) ≤ t - 10 by omega)
    (List.Sorted.cons (show (t - 10 : ℤ) ≤ t - 7 by omega)
      (List.Sorted.cons (show (t - 7 : ℤ) ≤ t - 3 by omega)
        (List.sorted_singleton _)))

theorem massInit_persisted (raw : RawSnapshot) (now today : ℤ) :
    (Mass.init raw now today).persisted =
      if sortEntries (loadEntries raw now) = [] then
        some (sortEntries (Mass.seedEntries today now))
      else none := by
  unfold Mass.init
  split <;> rfl

theorem appInit_persisted (raw : RawSnapshot) (now today : ℤ) :
    (App.init raw now today).persisted =
      if sortEntries (loadEntries raw now) = [] then
        some (sortEntries (App.seedEntries today now))
      else none := by
  unfold App.init
  split <;> rfl

/-- Claim C10 (confirmed).  A missing, unparseable or empty snapshot loads
as the empty list; when the loaded store is empty, both `init` variants
insert exactly four hard-coded demo entries dated relative to today
(part_001: today-6, today-4, today-2, today; app.js and part_000:
today-14, today-10, today-7, today-3) and immediately persist them via
`saveEntries`; and a session never begins
with an empty entry store. -/
theorem C10_seed_on_empty_load :
    (∀ (raw : RawSnapshot) (now today : ℤ),
      (Mass.init raw now today).entries ≠ [] ∧ (App.init raw now today).entries ≠ []) ∧
    (∀ now : ℤ,
      loadEntries none now = [] ∧ loadEntries (some none) now = [] ∧
      loadEntries (some (some [])) now = []) ∧
    (∀ (raw : RawSnapshot) (now today : ℤ), loadEntries raw now = [] →
      (Mass.init raw now today).entries = Mass.seedEntries today now ∧
      ((Mass.init raw now today).entries.map fun e => e.entryDate) =
        [today - 6, today - 4, today - 2, today] ∧
      (Mass.init raw now today).persisted = some (Mass.seedEntries today now) ∧
      (App.init raw now today).entries = App.seedEntries today now ∧
      ((App.init raw now today).entries.map fun e => e.entryDate) =
        [today - 14, today - 10, today - 7, today - 3] ∧
      (App.init raw now today).persisted = some (App.seedEntries today now)) := by
  refine ⟨?_, ?_, ?_⟩
  · intro raw now today
    constructor
    · rw [massInit_entries]
      split
      next =>
        intro hc
        have hlen := congrArg List.length hc
        rw [(sortEntries_perm _).length_eq] at hlen
        simp [Mass.seedEntries] at hlen
      next h => exact h
    · rw [appInit_entries]
      split
      next =>
        intro hc
        have hlen := congrArg List.length hc
        rw [(sortEntries_perm _).length_eq] at hlen
        simp [App.seedEntries] at hlen
      next h => exact h
  · intro now
    exact ⟨rfl, rfl, rfl⟩
  · intro raw now today hload
    have he : sortEntries (loadEntries raw now) = [] := by
      rw [hload]
      rfl
    have hm : (Mass.init raw now today).entries = sortEntries (Mass.seedEntries today now) := by
      rw [massInit_entries, if_pos he]
    have ha : (App.init raw now today).entries = sortEntries (App.seedEntries today now) := by
      rw [appInit_entries, if_pos he]
    refine ⟨?_, ?_, ?_, ?_, ?_, ?_⟩
    · rw [hm, sortEntries_seedMass]
    · rw [hm, sortEntries_seedMass]
      rfl
    · rw [massInit_persisted, if_pos he, sortEntries_seedMass]
    · rw [ha, sortEntries_seedApp]
    · rw [ha, sortEntries_seedApp]
      rfl
    · rw [appInit_persisted, if_pos he, sortEntries_seedApp]

/-- Witness for C10: a missing snapshot at `now = 5`, `today = 100` seeds
and persists the four demo entries of each variant. -/
theorem C10_seed_on_empty_load_witness :
    (Mass.init none 5 100).entries = Mass.seedEntries 100 5 ∧
    ((Mass.init none 5 100).entries.map fun e => e.entryDate) = [94, 96, 98, 100] ∧
    (Mass.init none 5 100).persisted = some (Mass.seedEntries 100 5) ∧
    (App.init none 5 100).entries = App.seedEntries 100 5 ∧
    ((App.init none 5 100).entries.map fun e => e.entryDate) = [86, 90, 93, 97] ∧
    (App.init none 5 100).persisted = some (App.seedEntries 100 5) := by
  have h := C10_seed_on_empty_load.2.2 none 5 100 rfl
  norm_num at h
  exact h
